import Mathlib

/-!
Verification of the healthcare-deals pipeline (`src/deal_finder.py`).

The Python module is embedded shallowly: text is modelled as `List Char`
(Python `str` operations such as `lower`, `strip`, `in` become explicit
character-list functions), unbounded Python integers become `Int`/`Nat`,
`None` becomes `Option`, and the one place where an uncaught exception can
escape is modelled with `Except`.  Each definition mirrors one function of
the source file; line references are given in the doc comments.
-/

namespace HealthcareDeals

/-! ### Character-level text helpers (models of Python str operations) -/

/-- Model of Python `str.lower` for the ASCII texts handled by the program:
character-wise lowering. -/
def lowerL (l : List Char) : List Char := l.map Char.toLower

/-- Characters stripped by Python `str.strip()` (whitespace). -/
def isStripChar (c : Char) : Bool :=
  c = ' ' || c = '\t' || c = '\n' || c = '\r' || c = '\x0b' || c = '\x0c'

/-- Model of Python `str.strip()`: drop leading and trailing whitespace. -/
def trimL (l : List Char) : List Char :=
  ((l.dropWhile isStripChar).reverse.dropWhile isStripChar).reverse

/-- Model of the Python substring test `pat in hay`. -/
def containsSub (pat : List Char) : List Char → Bool
  | [] => pat.isEmpty
  | c :: t => pat.isPrefixOf (c :: t) || containsSub pat t

/-- Convenience: `kw.lower() in text` for a `String` keyword against an
already-lowered text. -/
def kwIn (text : List Char) (kw : String) : Bool :=
  containsSub (lowerL kw.data) text

/-! ### Data model

The `Deal` dataclass of `deal_finder.py` (lines 95-124).  Field names and
defaults follow the source; `criteria_tags` holds the `label`/`type`
dictionaries produced by the analysis parser. -/

structure Tag where
  label : String
  type : String
deriving DecidableEq, Repr

structure Deal where
  title : String
  source : String
  asking_price : Option String
  revenue : Option String
  cash_flow : Option String
  location : Option String
  description : Option String
  url : String
  ebitda : Option String := none
  ebitda_margin : Option String := none
  owner_involvement : Option String := none
  sba_eligible : Option String := none
  score : Int := 0
  found_date : String := ""
  whats_good : Option String := none
  concerns : Option String := none
  recommendation : Option String := none
  fit_score : Option String := none
  criteria_tags : List Tag := []
  key_details : Option String := none
  next_step : Option String := none
  tier : Int := 0
deriving DecidableEq, Repr

/-- The `criteria` sub-dictionary of `CONFIG` (deal_finder.py lines 50-72). -/
structure Criteria where
  industries : List String
  min_price : Int
  max_price : Int
  locations : List String
  keywords_positive : List String
  keywords_negative : List String

/-- The concrete `CONFIG["criteria"]` table of the source (lines 50-72). -/
def configCriteria : Criteria where
  industries :=
    ["medical practice", "healthcare", "home health", "home care",
     "senior care", "hospice", "physical therapy", "occupational therapy",
     "behavioral health", "mental health", "healthcare staffing",
     "medical billing", "dental practice", "optometry", "dermatology",
     "urgent care", "clinic", "nursing", "assisted living", "pharmacy",
     "psychiatry", "psychology", "counseling", "therapy", "ABA",
     "substance abuse", "addiction treatment", "rehabilitation"]
  min_price := 1000000
  max_price := 5000000
  locations := ["California", "CA", "Kentucky", "KY", "remote", "anywhere"]
  keywords_positive :=
    ["absentee", "semi-absentee", "manager in place", "management in place",
     "passive", "turnkey", "established", "stable", "recurring revenue",
     "SBA", "SBA eligible", "SBA qualified", "cash flow positive",
     "EBITDA", "cash flow", "SDE", "seller discretionary"]
  keywords_negative :=
    ["owner-operator required", "full-time owner", "hands-on required"]

/-! ### `_score_deal` (deal_finder.py lines 217-243)

The Python method mutates `deal.owner_involvement` / `deal.sba_eligible`
and returns the score; the model threads the deal explicitly and returns
the updated deal together with the returned score. -/

/-- The lowered concatenated text
`f"{deal.title} {deal.description or ''} {deal.location or ''}".lower()`. -/
def dealText (deal : Deal) : List Char :=
  lowerL (deal.title ++ " " ++ deal.description.getD "" ++ " " ++
    deal.location.getD "").data

/-- The location loop: `+20` and `break` on the first matching location. -/
def locScore (text : List Char) : List String → Int
  | [] => 0
  | loc :: rest => if kwIn text loc then 20 else locScore text rest

/-- One iteration of the positive-keyword loop. -/
def posStep (text : List Char) (st : Deal × Int) (kw : String) : Deal × Int :=
  if kwIn text kw then
    let d := st.1
    let d := if containsSub "absentee".data (lowerL kw.data) then
      { d with owner_involvement := some "Low (absentee mentioned)" } else d
    let d := if containsSub "sba".data (lowerL kw.data) then
      { d with sba_eligible := some "Likely (SBA mentioned)" } else d
    (d, st.2 + 10)
  else st

/-- One iteration of the negative-keyword loop. -/
def negStep (text : List Char) (st : Deal × Int) (kw : String) : Deal × Int :=
  if kwIn text kw then
    ({ st.1 with owner_involvement := some "High (owner-operator mentioned)" },
     st.2 - 15)
  else st

/-- One iteration of the industry loop (score only). -/
def indStep (text : List Char) (acc : Int) (ind : String) : Int :=
  if kwIn text ind then acc + 5 else acc

/-- Model of `_score_deal`: returns the deal after its in-place annotation
updates, together with the returned integer score. -/
def score_deal (c : Criteria) (deal : Deal) : Deal × Int :=
  let text := dealText deal
  let s0 := locScore text c.locations
  let st1 := c.keywords_positive.foldl (posStep text) (deal, s0)
  let st2 := c.keywords_negative.foldl (negStep text) st1
  let s3 := c.industries.foldl (indStep text) st2.2
  (st2.1, s3)

/-! ### Score formula lemmas -/

lemma locScore_eq (text : List Char) (locs : List String) :
    locScore text locs = if locs.any (kwIn text) then 20 else 0 := by
  induction locs with
  | nil => simp [locScore]
  | cons l t ih =>
    by_cases h : kwIn text l <;> simp [locScore, h, ih]

lemma posStep_snd (text : List Char) (st : Deal × Int) (kw : String) :
    (posStep text st kw).2 = st.2 + (if kwIn text kw then 10 else 0) := by
  by_cases h : kwIn text kw <;> simp [posStep, h]

lemma posFold_snd (text : List Char) (kws : List String) :
    ∀ (st : Deal × Int),
      (kws.foldl (posStep text) st).2 =
        st.2 + 10 * (kws.countP (kwIn text) : Int) := by
  induction kws with
  | nil => simp
  | cons k t ih =>
    intro st
    rw [List.foldl_cons, ih, posStep_snd, List.countP_cons]
    by_cases h : kwIn text k <;> simp [h] <;> push_cast <;> ring

lemma negStep_snd (text : List Char) (st : Deal × Int) (kw : String) :
    (negStep text st kw).2 = st.2 - (if kwIn text kw then 15 else 0) := by
  by_cases h : kwIn text kw <;> simp [negStep, h]

lemma negFold_snd (text : List Char) (kws : List String) :
    ∀ (st : Deal × Int),
      (kws.foldl (negStep text) st).2 =
        st.2 - 15 * (kws.countP (kwIn text) : Int) := by
  induction kws with
  | nil => simp
  | cons k t ih =>
    intro st
    rw [List.foldl_cons, ih, negStep_snd, List.countP_cons]
    by_cases h : kwIn text k <;> simp [h] <;> push_cast <;> ring

lemma indFold (text : List Char) (inds : List String) :
    ∀ (s : Int),
      inds.foldl (indStep text) s = s + 5 * (inds.countP (kwIn text) : Int) := by
  induction inds with
  | nil => simp
  | cons k t ih =>
    intro s
    rw [List.foldl_cons, ih, List.countP_cons]
    by_cases h : kwIn text k <;> simp [indStep, h] <;> push_cast <;> ring

/-- C1: `_score_deal` returns exactly the additive keyword score: a single
+20 bonus if any configured location matches the lowered
title+description+location text, +10 per matching positive keyword,
-15 per matching negative keyword, and +5 per matching industry keyword. -/
theorem score_deal_formula (c : Criteria) (deal : Deal) :
    (score_deal c deal).2 =
      (if c.locations.any (kwIn (dealText deal)) then 20 else 0)
      + 10 * (c.keywords_positive.countP (kwIn (dealText deal)) : Int)
      - 15 * (c.keywords_negative.countP (kwIn (dealText deal)) : Int)
      + 5 * (c.industries.countP (kwIn (dealText deal)) : Int) := by
  dsimp only [score_deal]
  rw [indFold, negFold_snd, posFold_snd, locScore_eq]

/-! ### Annotation lemmas for `_score_deal` -/

lemma negFold_owner (text : List Char) (kws : List String) :
    ∀ (st : Deal × Int),
      ((kws.foldl (negStep text) st).1).owner_involvement =
        if kws.any (kwIn text) then some "High (owner-operator mentioned)"
        else st.1.owner_involvement := by
  induction kws with
  | nil => simp
  | cons k t ih =>
    intro st
    by_cases h : kwIn text k
    · simp [negStep, h, ih, ite_self]
    · simp [negStep, h, ih]

/-- C5: if any configured negative keyword occurs in the deal's text (in
particular when an "absentee"-family positive keyword also occurs), the
owner-involvement annotation after `_score_deal` is the "high" value written
by the negative-keyword scan, which runs after the positive-keyword scan. -/
theorem score_deal_negative_precedence (c : Criteria) (deal : Deal)
    (_hpos : ∃ kw ∈ c.keywords_positive,
      containsSub "absentee".data (lowerL kw.data) ∧ kwIn (dealText deal) kw)
    (hneg : ∃ kw ∈ c.keywords_negative, kwIn (dealText deal) kw) :
    ((score_deal c deal).1).owner_involvement =
      some "High (owner-operator mentioned)" := by
  dsimp only [score_deal]
  rw [negFold_owner]
  simp only [List.any_eq_true]
  rw [if_pos]
  obtain ⟨kw, hmem, hk⟩ := hneg
  exact ⟨kw, hmem, hk⟩

/-- Concrete deal exercising the C5 hypotheses. -/
def precedenceDeal : Deal where
  title := "Absentee run clinic but Owner-Operator Required on site"
  source := "BizBuySell"
  asking_price := some "$2,000,000"
  revenue := none
  cash_flow := none
  location := some "California"
  description := some "A stable healthcare business"
  url := "https://example.com/listing/1"

theorem score_deal_negative_precedence_witness :
    (∃ kw ∈ configCriteria.keywords_positive,
      containsSub "absentee".data (lowerL kw.data) ∧
        kwIn (dealText precedenceDeal) kw) ∧
    (∃ kw ∈ configCriteria.keywords_negative,
      kwIn (dealText precedenceDeal) kw) ∧
    ((score_deal configCriteria precedenceDeal).1).owner_involvement =
      some "High (owner-operator mentioned)" :=
  ⟨by decide, by decide,
   score_deal_negative_precedence configCriteria precedenceDeal
     (by decide) (by decide)⟩

/-! ### Frame effect of `_score_deal` (C9) -/

/-- Every `Deal` field except the two annotation fields written by
`_score_deal` (`owner_involvement`, `sba_eligible`). -/
def dealFrame (d : Deal) :=
  (d.title, d.source, d.asking_price, d.revenue, d.cash_flow, d.location,
   d.description, d.url, d.ebitda, d.ebitda_margin, d.score, d.found_date,
   d.whats_good, d.concerns, d.recommendation, d.fit_score, d.criteria_tags,
   d.key_details, d.next_step, d.tier)

lemma posStep_frame (text : List Char) (st : Deal × Int) (kw : String) :
    dealFrame (posStep text st kw).1 = dealFrame st.1 := by
  dsimp only [posStep]
  split_ifs <;> rfl

lemma negStep_frame (text : List Char) (st : Deal × Int) (kw : String) :
    dealFrame (negStep text st kw).1 = dealFrame st.1 := by
  dsimp only [negStep]
  split_ifs <;> rfl

lemma posFold_frame (text : List Char) (kws : List String) :
    ∀ (st : Deal × Int),
      dealFrame ((kws.foldl (posStep text) st).1) = dealFrame st.1 := by
  induction kws with
  | nil => simp
  | cons k t ih =>
    intro st
    rw [List.foldl_cons, ih, posStep_frame]

lemma negFold_frame (text : List Char) (kws : List String) :
    ∀ (st : Deal × Int),
      dealFrame ((kws.foldl (negStep text) st).1) = dealFrame st.1 := by
  induction kws with
  | nil => simp
  | cons k t ih =>
    intro st
    rw [List.foldl_cons, ih, negStep_frame]

/-- C9: `_score_deal` mutates at most `owner_involvement` and `sba_eligible`:
every other field of the deal — including the stored `score`, which
`_score_deal` only returns and does not write — is unchanged. -/
theorem score_deal_frame (c : Criteria) (deal : Deal) :
    dealFrame ((score_deal c deal).1) = dealFrame deal := by
  dsimp only [score_deal]
  rw [negFold_frame, posFold_frame]

/-! ### `_parse_price` (deal_finder.py lines 245-261) and
`_is_in_price_range` (lines 263-268)

Python's `float` is modelled exactly on the optionally signed
decimal literals `digits [. digits]` that `_parse_price` can reach; other literal
forms (exponent, underscore, inf/nan spellings) are rejected where the
claims never exercise them.  A decimal literal whose value reaches
magnitude `2^1024` is a float infinity in Python; `int()` of an infinite
float raises `OverflowError`, which `_parse_price` does **not** catch
(it only catches `ValueError` and `TypeError`), so that path is modelled
as `Except.error`. -/

/-- Model of Python `str.upper` for the ASCII texts handled here. -/
def upperL (l : List Char) : List Char := l.map Char.toUpper

/-- Model of Python `str.split(sep)` for a one-character separator. -/
def splitOnChar (sep : Char) (l : List Char) : List (List Char) :=
  l.foldr (fun c acc =>
    if c = sep then [] :: acc
    else match acc with
      | [] => [[c]]
      | h :: t => (c :: h) :: t) [[]]

/-- Numeric value of a digit string. -/
def digitsToNat (l : List Char) : Nat :=
  l.foldl (fun n c => 10 * n + (c.toNat - 48)) 0

/-- An exact decimal value `mant / 10 ^ exp`, the value of a decimal
literal. -/
structure DecimalVal where
  mant : Int
  exp : Nat
deriving DecidableEq

/-- Value of a decimal literal `digits [. digits]` with a sign (at least
one digit, at most one dot); `none` models a `ValueError` from `float()`. -/
def floatCore (sign : Int) (l : List Char) : Option DecimalVal :=
  match splitOnChar '.' l with
  | [a] =>
    if a ≠ [] ∧ a.all Char.isDigit then
      some ⟨sign * (digitsToNat a : Int), 0⟩
    else none
  | [a, b] =>
    if (a ++ b) ≠ [] ∧ (a ++ b).all Char.isDigit then
      some ⟨sign * ((digitsToNat a : Int) * 10 ^ b.length +
        (digitsToNat b : Int)), b.length⟩
    else none
  | _ => none

/-- Exact model of Python `float(s)` on the strings `_parse_price`
feeds it. -/
def floatOfChars (l0 : List Char) : Option DecimalVal :=
  match trimL l0 with
  | '+' :: t => floatCore 1 t
  | '-' :: t => floatCore (-1) t
  | t => floatCore 1 t

/-- Multiplication of a decimal value by a power of ten (the `* 1_000_000`
and `* 1_000` of the M / K suffix branches). -/
def decMulPow10 (d : DecimalVal) (k : Nat) : DecimalVal :=
  ⟨d.mant * 10 ^ k, d.exp⟩

/-- Smallest magnitude at which a Python float value is infinite. -/
def floatInfBound : Nat := 2 ^ 1024

/-- Model of Python `int(x)` on a float value `x`: truncation toward zero;
magnitude `2^1024` or more means `x` is an infinity, where Python raises an
uncaught `OverflowError` (`Except.error`). -/
def pyIntOfFloat (d : DecimalVal) : Except Unit Int :=
  if floatInfBound * 10 ^ d.exp ≤ d.mant.natAbs then .error ()
  else .ok (d.mant.tdiv ((10 : Int) ^ d.exp))

/-- Model of `_parse_price`: `.ok none` is a `None` return (parse failure
handled by the function), `.error` an uncaught exception escaping it. -/
def parse_price (price : Option String) : Except Unit (Option Int) :=
  match price with
  | none => .ok none
  | some s =>
    if s.data = [] then .ok none
    else
      let l := trimL ((upperL s.data).filter (fun c => c != ',' && c != '$'))
      if l.contains 'M' then
        match floatOfChars (trimL (l.filter (· != 'M'))) with
        | none => .ok none
        | some q => (pyIntOfFloat (decMulPow10 q 6)).map some
      else if l.contains 'K' then
        match floatOfChars (trimL (l.filter (· != 'K'))) with
        | none => .ok none
        | some q => (pyIntOfFloat (decMulPow10 q 3)).map some
      else
        let num := l.filter (fun c => c.isDigit || c = '.')
        if num = [] then .ok none
        else
          match floatOfChars num with
          | none => .ok none
          | some q => (pyIntOfFloat q).map some

/-- Model of `_is_in_price_range`. -/
def is_in_price_range (c : Criteria) (price : Option String) :
    Except Unit Bool :=
  match parse_price price with
  | .error e => .error e
  | .ok none => .ok true
  | .ok (some p) => .ok (decide (c.min_price ≤ p ∧ p ≤ c.max_price))

/-- The 400-nines price string on which `_parse_price` raises: `float` of
it is infinity, and `int(float(...))` raises `OverflowError`, which the
`except (ValueError, TypeError)` clause does not catch. -/
def overflowPriceStr : String := String.mk (List.replicate 400 '9')

deriving instance DecidableEq for Except

set_option maxRecDepth 40000 in
/-- C3: the reference values of `_parse_price` hold, but the "never raises"
half of the claim fails: on a 400-digit numeric string the code raises an
uncaught `OverflowError` (modelled as `Except.error`). -/
theorem parse_price_values :
    parse_price (some "$1,200,000") = .ok (some 1200000) ∧
    parse_price (some "1.2M") = .ok (some 1200000) ∧
    parse_price (some "500K") = .ok (some 500000) ∧
    parse_price (some "") = .ok none ∧
    parse_price none = .ok none ∧
    parse_price (some overflowPriceStr) = .error () := by
  refine ⟨by decide, by decide, by decide, by decide, by decide, by decide⟩

set_option maxRecDepth 40000 in
/-- C4: `_is_in_price_range` returns `True` exactly when `_parse_price`
gives `None` (unknown price, admitted optimistically) or a value inside the
inclusive configured window; with the configured window `[1000000, 5000000]`
the price `$4,500,000` passes, `$900,000` fails, and an absent price
passes. -/
theorem is_in_price_range_spec :
    (∀ price : Option String,
      (is_in_price_range configCriteria price = .ok true ↔
        parse_price price = .ok none ∨
        ∃ p, parse_price price = .ok (some p) ∧
          1000000 ≤ p ∧ p ≤ 5000000)) ∧
    is_in_price_range configCriteria (some "$4,500,000") = .ok true ∧
    is_in_price_range configCriteria (some "$900,000") = .ok false ∧
    is_in_price_range configCriteria none = .ok true := by
  refine ⟨fun price => ?_, by decide, by decide, by decide⟩
  unfold is_in_price_range
  match h : parse_price price with
  | .error e => simp
  | .ok none => simp
  | .ok (some p) =>
    simp only [Except.ok.injEq, reduceCtorEq, false_or]
    constructor
    · intro hb
      exact ⟨p, rfl, by simpa [configCriteria] using of_decide_eq_true hb⟩
    · rintro ⟨q, hq, h1, h2⟩
      cases hq
      simp [configCriteria, h1, h2]

/-! ### The dedup / junk-filter / sort phase of `run_all_searches`
(deal_finder.py lines 1015-1041)

The loop walks the collected deals keeping a `seen_urls` set: a deal whose
URL is already in the set is skipped; otherwise the three junk checks run;
a deal passing everything is appended and its URL added to the set.  The
survivors are then sorted by score descending with Python's stable sort,
modelled by `List.insertionSort` with the non-strict "score at least"
relation (which is the unique stable descending order). -/

def junk_titles : List String :=
  ["all matching deals", "businesses for sale", "search results",
   "business for sale", "view listing", ""]

/-- `deal.title.lower().strip() in junk_titles`. -/
def junkTitle (d : Deal) : Bool :=
  junk_titles.contains (String.mk (trimL (lowerL d.title.data)))

/-- The "no listings found" description check, case-insensitive. -/
def descNoListings (d : Deal) : Bool :=
  containsSub "no listings found".data (lowerL (d.description.getD "").data)

/-- `len(deal.title) <= 5`. -/
def shortTitle (d : Deal) : Bool := d.title.data.length ≤ 5

/-- The dedup loop with its `seen_urls` set and `unique_deals` accumulator. -/
def dedupLoop (seen : List String) (acc : List Deal) : List Deal → List Deal
  | [] => acc
  | deal :: rest =>
    if seen.contains deal.url then dedupLoop seen acc rest
    else if junkTitle deal then dedupLoop seen acc rest
    else if descNoListings deal then dedupLoop seen acc rest
    else if shortTitle deal then dedupLoop seen acc rest
    else dedupLoop (deal.url :: seen) (acc ++ [deal]) rest

/-- Score-descending comparison used by `self.deals.sort(key=..., reverse=True)`. -/
def scoreGe (a b : Deal) : Prop := b.score ≤ a.score

instance : DecidableRel scoreGe := fun a b => Int.decLe b.score a.score

instance : IsTotal Deal scoreGe := ⟨fun a b => (le_total b.score a.score)⟩

instance : IsTrans Deal scoreGe := ⟨fun _ _ _ hab hbc => le_trans hbc hab⟩

/-- Model of the dedup/junk-filter/sort phase of `run_all_searches`. -/
def run_all_searches_filter (deals : List Deal) : List Deal :=
  List.insertionSort scoreGe (dedupLoop [] [] deals)

/-- A deal survives the three junk checks. -/
def passes_junk_filters (d : Deal) : Bool :=
  !junkTitle d && !descNoListings d && !shortTitle d

/-- Modelled from the claim's words (claim C2, before amendment): keep only
the first deal with each URL — a later deal with the same URL as ANY earlier
deal is dropped — and drop junk deals. -/
def keptClaimAux (prior : List Deal) : List Deal → List Deal
  | [] => []
  | d :: t =>
    if passes_junk_filters d && !(prior.any (fun e => e.url == d.url)) then
      d :: keptClaimAux (prior ++ [d]) t
    else keptClaimAux (prior ++ [d]) t

def keptClaim (l : List Deal) : List Deal := keptClaimAux [] l

/-- Modelled from the amended claim's words: a deal is kept iff it passes
the junk filters and no earlier deal that passes the junk filters has the
same URL (a junk deal does not reserve its URL). -/
def keptSpecAux (prior : List Deal) : List Deal → List Deal
  | [] => []
  | d :: t =>
    if passes_junk_filters d &&
        !(prior.any (fun e => passes_junk_filters e && e.url == d.url)) then
      d :: keptSpecAux (prior ++ [d]) t
    else keptSpecAux (prior ++ [d]) t

def keptSpec (l : List Deal) : List Deal := keptSpecAux [] l

/-- A junk-titled deal occupying a URL. -/
def junkUrlDeal : Deal where
  title := "View Listing"
  source := "DealStream"
  asking_price := none
  revenue := none
  cash_flow := none
  location := none
  description := none
  url := "https://example.com/listing/7"

/-- A clean deal sharing the junk deal's URL. -/
def cleanUrlDeal : Deal where
  title := "Established Home Health Agency"
  source := "DealStream"
  asking_price := some "$2,000,000"
  revenue := none
  cash_flow := none
  location := some "California"
  description := some "A healthcare business"
  url := "https://example.com/listing/7"

/-- C2 counterexample: the phase is NOT "first deal with each URL wins plus
junk filtering": when the first deal with a URL is itself dropped as junk,
the code still keeps a later clean deal with the same URL, while the claim
as stated drops it. -/
theorem run_all_searches_filter_counterexample :
    run_all_searches_filter [junkUrlDeal, cleanUrlDeal] ≠
      List.insertionSort scoreGe (keptClaim [junkUrlDeal, cleanUrlDeal]) := by
  decide

/-! Lemmas for the amended C2 characterisation. -/

lemma dedupLoop_acc (l : List Deal) :
    ∀ (seen : List String) (acc : List Deal),
      dedupLoop seen acc l = acc ++ dedupLoop seen [] l := by
  induction l with
  | nil => intro seen acc; simp [dedupLoop]
  | cons d t ih =>
    intro seen acc
    rw [dedupLoop, dedupLoop]
    by_cases h1 : seen.contains d.url
    · rw [if_pos h1, if_pos h1, ih]
    · rw [if_neg h1, if_neg h1]
      by_cases h2 : junkTitle d
      · rw [if_pos h2, if_pos h2, ih]
      · rw [if_neg h2, if_neg h2]
        by_cases h3 : descNoListings d
        · rw [if_pos h3, if_pos h3, ih]
        · rw [if_neg h3, if_neg h3]
          by_cases h4 : shortTitle d
          · rw [if_pos h4, if_pos h4, ih]
          · rw [if_neg h4, if_neg h4, ih _ (acc ++ [d]), ih _ ([] ++ [d])]
            simp

lemma dedupLoop_eq_keptSpecAux (l : List Deal) :
    ∀ (seen : List String) (prior : List Deal),
      (∀ u : String, seen.contains u =
        prior.any (fun e => passes_junk_filters e && e.url == u)) →
      dedupLoop seen [] l = keptSpecAux prior l := by
  induction l with
  | nil => intro seen prior _; simp [dedupLoop, keptSpecAux]
  | cons d t ih =>
    intro seen prior hinv
    rw [dedupLoop, keptSpecAux]
    by_cases h1 : seen.contains d.url
    · -- skipped via the seen set: an earlier passing deal holds this URL
      have hprior : prior.any (fun e => passes_junk_filters e && e.url == d.url)
          = true := by rw [← hinv d.url]; exact h1
      rw [if_pos h1, if_neg (by simp [hprior])]
      refine ih _ _ (fun u => ?_)
      rw [hinv u, List.any_append]
      simp only [List.any_cons, List.any_nil, Bool.or_false]
      by_cases hu : d.url = u
      · subst hu; simp [hprior]
      · simp [hu]
    · have hfresh : prior.any (fun e => passes_junk_filters e && e.url == d.url)
          = false := by
        rw [← hinv d.url]; exact Bool.of_not_eq_true h1
      rw [if_neg h1]
      by_cases h2 : passes_junk_filters d = true
      · -- kept on both sides
        have hj : junkTitle d = false := by
          rcases hjj : junkTitle d with _ | _
          · rfl
          · simp [passes_junk_filters, hjj] at h2
        have hde : descNoListings d = false := by
          rcases hdd : descNoListings d with _ | _
          · rfl
          · simp [passes_junk_filters, hdd] at h2
        have hs : shortTitle d = false := by
          rcases hss : shortTitle d with _ | _
          · rfl
          · simp [passes_junk_filters, hss] at h2
        rw [if_neg (by simp [hj]), if_neg (by simp [hde]),
          if_neg (by simp [hs]), if_pos (by simp [h2, hfresh]),
          dedupLoop_acc]
        simp only [List.nil_append, List.singleton_append, List.cons.injEq,
          true_and]
        refine ih _ _ (fun u => ?_)
        rw [List.contains_cons, hinv u, List.any_append]
        simp only [List.any_cons, List.any_nil, Bool.or_false, h2,
          Bool.true_and]
        rw [Bool.or_comm, Bool.beq_comm]
      · -- dropped by a junk filter on both sides
        have hskip :
            (if junkTitle d then dedupLoop seen [] t
             else if descNoListings d then dedupLoop seen [] t
             else if shortTitle d then dedupLoop seen [] t
             else dedupLoop (d.url :: seen) ([] ++ [d]) t) =
              dedupLoop seen [] t := by
          rcases hjj : junkTitle d with _ | _
          · rcases hdd : descNoListings d with _ | _
            · rcases hss : shortTitle d with _ | _
              · exact absurd (by simp [passes_junk_filters, hjj, hdd, hss]) h2
              · simp [hjj, hdd, hss]
            · simp [hjj, hdd]
          · simp [hjj]
        rw [hskip, if_neg (by simp [h2])]
        have hp : passes_junk_filters d = false := Bool.of_not_eq_true h2
        refine ih _ _ (fun u => ?_)
        rw [hinv u, List.any_append]
        simp [hp]

lemma dedupLoop_eq_keptSpec (deals : List Deal) :
    dedupLoop [] [] deals = keptSpec deals := by
  refine dedupLoop_eq_keptSpecAux deals [] [] (fun u => ?_)
  simp

lemma filter_orderedInsert_score (x : Deal) (l : List Deal) (s : Int) :
    (List.orderedInsert scoreGe x l).filter (fun d => d.score == s) =
      if x.score = s then x :: l.filter (fun d => d.score == s)
      else l.filter (fun d => d.score == s) := by
  rw [List.orderedInsert_eq_take_drop, List.filter_append, List.filter_cons]
  by_cases hx : x.score = s
  · rw [if_pos hx, if_pos (by simpa using hx)]
    have h1 : (l.takeWhile fun b => decide ¬scoreGe x b).filter
        (fun d => d.score == s) = [] := by
      rw [List.filter_eq_nil_iff]
      intro b hb
      have hp := List.mem_takeWhile_imp hb
      simp only [decide_not, Bool.not_eq_true', decide_eq_false_iff_not,
        scoreGe] at hp
      simp only [beq_iff_eq]
      omega
    rw [h1, List.nil_append]
    conv_rhs => rw [← List.takeWhile_append_dropWhile
      (p := fun b => decide ¬scoreGe x b) (l := l)]
    rw [List.filter_append, h1, List.nil_append]
  · rw [if_neg hx, if_neg (by simpa using hx)]
    conv_rhs => rw [← List.takeWhile_append_dropWhile
      (p := fun b => decide ¬scoreGe x b) (l := l)]
    rw [List.filter_append]

lemma filter_insertionSort_score (l : List Deal) (s : Int) :
    (List.insertionSort scoreGe l).filter (fun d => d.score == s) =
      l.filter (fun d => d.score == s) := by
  induction l with
  | nil => rfl
  | cons d t ih =>
    rw [List.insertionSort, filter_orderedInsert_score, ih, List.filter_cons]
    by_cases h : d.score = s
    · rw [if_pos h, if_pos (by simpa using h)]
    · rw [if_neg h, if_neg (by simpa using h)]

/-- C2 (amended): the dedup/junk-filter phase keeps a Deal iff it passes the
junk filters (title not in the junk set, no "no listings found" description,
title longer than 5 characters) and no EARLIER JUNK-FILTER-PASSING Deal has
the same URL (a dropped junk deal does not reserve its URL); the survivors
are returned sorted by score descending, and the sort is stable: for every
score value the survivors with that score keep their original relative
order. -/
theorem run_all_searches_filter_spec (deals : List Deal) :
    run_all_searches_filter deals =
      List.insertionSort scoreGe (keptSpec deals) ∧
    (run_all_searches_filter deals).Pairwise scoreGe ∧
    ∀ s : Int,
      (run_all_searches_filter deals).filter (fun d => d.score == s) =
        (keptSpec deals).filter (fun d => d.score == s) := by
  refine ⟨?_, ?_, fun s => ?_⟩
  · unfold run_all_searches_filter
    rw [dedupLoop_eq_keptSpec]
  · exact List.sorted_insertionSort scoreGe _
  · unfold run_all_searches_filter
    rw [filter_insertionSort_score, dedupLoop_eq_keptSpec]

/-! ### `_analyze_deal_with_claude` (deal_finder.py lines 270-352)

The external call is opaque: its outcome is an input of the model, either
`.ok text` (the response text reached the parsing loop) or `.error ()` (the
client call or the access to the response object raised, landing in the
`except Exception` handler).  The parsing loop itself cannot raise: the one
fallible conversion, `int(...)` on the first character of the TIER value,
is guarded by its own `except (ValueError, IndexError)` that falls back to
tier 2. -/

/-- `line.split(":", 1)[1]` for a line known to contain a colon. -/
def afterColon (l : List Char) : List Char :=
  (l.dropWhile (fun c => c != ':')).drop 1

/-- `int(value[0])` with the tier fallback: empty or non-digit first
character gives tier 2 (`ValueError` / `IndexError` branch). -/
def tierOf (v : List Char) : Int :=
  match v with
  | [] => 2
  | c :: _ => if c.isDigit then ((c.toNat - 48 : Nat) : Int) else 2

/-- One iteration of the CRITERIA_TAGS loop. -/
def parseTag (acc : List Tag) (tagRaw : List Char) : List Tag :=
  match trimL tagRaw with
  | '+' :: rest => acc ++ [⟨String.mk (trimL rest), "hit"⟩]
  | '-' :: rest => acc ++ [⟨String.mk (trimL rest), "miss"⟩]
  | '?' :: rest => acc ++ [⟨String.mk (trimL rest), "maybe"⟩]
  | [] => acc
  | tag => acc ++ [⟨String.mk tag, "maybe"⟩]

/-- One iteration of the response-parsing loop, on an already stripped
line. -/
def processLine (d : Deal) (line : List Char) : Deal :=
  if "FIT_SCORE:".data.isPrefixOf line then
    { d with fit_score := some (String.mk (trimL (afterColon line))) }
  else if "TIER:".data.isPrefixOf line then
    { d with tier := tierOf (trimL (afterColon line)) }
  else if "RECOMMENDATION:".data.isPrefixOf line then
    { d with recommendation := some (String.mk (trimL (afterColon line))) }
  else if "CRITERIA_TAGS:".data.isPrefixOf line then
    { d with criteria_tags :=
        (splitOnChar ',' (trimL (afterColon line))).foldl parseTag [] }
  else if "KEY_DETAILS:".data.isPrefixOf line then
    { d with key_details := some (String.mk (trimL (afterColon line))) }
  else if "NEXT_STEP:".data.isPrefixOf line then
    { d with next_step := some (String.mk (trimL (afterColon line))) }
  else d

/-- Model of `_analyze_deal_with_claude`: `enabled` is the
`ANTHROPIC_AVAILABLE and CONFIG["anthropic"]["enabled"]` guard, `resp` the
outcome of the external call. -/
def analyze_deal (enabled : Bool) (resp : Except Unit String) (deal : Deal) :
    Deal :=
  if !enabled then deal
  else
    match resp with
    | .error _ =>
      { deal with
          recommendation := some "Investigate - AI analysis failed"
          fit_score := some "?"
          tier := 2 }
    | .ok analysis =>
      (splitOnChar '\n' analysis.data).foldl
        (fun d line => processLine d (trimL line)) deal

/-- A concrete deal for the C6 counterexample and witness. -/
def ratedDeal : Deal where
  title := "Home Health Agency"
  source := "Synergy Business Brokers"
  asking_price := some "$3,000,000"
  revenue := none
  cash_flow := none
  location := some "Kentucky"
  description := some "Agency with manager in place"
  url := "https://example.com/listing/9"

/-- C6 counterexample: on a rater failure the degraded recommendation
string written by the code is "Investigate - AI analysis failed", not the
"Investigate — analysis failed" quoted by the claim. -/
theorem analyze_deal_counterexample :
    (analyze_deal true (.error ()) ratedDeal).recommendation ≠
      some "Investigate — analysis failed" := by
  decide

lemma processLine_tier (d : Deal) (rest : List Char) :
    processLine d ("TIER:".data ++ rest) =
      { d with tier := tierOf (trimL rest) } := by
  rw [processLine]
  rw [if_neg (by
    simp [show "FIT_SCORE:".data.isPrefixOf ("TIER:".data ++ rest) = false
      from rfl])]
  rw [if_pos (by
    rw [ List.isPrefixOf_iff_prefix]; exact List.prefix_append _ _)]
  rfl

/-- C6 (amended): a rater failure never propagates: the deal is degraded to
the neutral placeholder (tier 2, grade "?", recommendation
"Investigate - AI analysis failed"); a TIER line whose value is empty or
does not start with a digit falls back to tier 2; a line carrying none of
the six labels leaves the deal unchanged, so missing fields keep their
defaults, as does an empty response. -/
theorem analyze_deal_spec :
    (∀ d : Deal, analyze_deal true (.error ()) d =
      { d with
          recommendation := some "Investigate - AI analysis failed"
          fit_score := some "?"
          tier := 2 }) ∧
    (∀ (d : Deal) (rest : List Char), trimL rest = [] →
      (processLine d ("TIER:".data ++ rest)).tier = 2) ∧
    (∀ (d : Deal) (rest : List Char) (c : Char) (cs : List Char),
      trimL rest = c :: cs → c.isDigit = false →
      (processLine d ("TIER:".data ++ rest)).tier = 2) ∧
    (∀ (d : Deal) (line : List Char),
      "FIT_SCORE:".data.isPrefixOf line = false →
      "TIER:".data.isPrefixOf line = false →
      "RECOMMENDATION:".data.isPrefixOf line = false →
      "CRITERIA_TAGS:".data.isPrefixOf line = false →
      "KEY_DETAILS:".data.isPrefixOf line = false →
      "NEXT_STEP:".data.isPrefixOf line = false →
      processLine d line = d) ∧
    (∀ d : Deal, analyze_deal true (.ok "") d = d) := by
  refine ⟨fun d => rfl, ?_, ?_, ?_, fun d => rfl⟩
  · intro d rest hrest
    rw [processLine_tier, hrest]
    rfl
  · intro d rest c cs hrest hc
    rw [processLine_tier, hrest]
    simp [tierOf, hc]
  · intro d line h1 h2 h3 h4 h5 h6
    rw [processLine, if_neg (by simp [h1]), if_neg (by simp [h2]),
      if_neg (by simp [h3]), if_neg (by simp [h4]), if_neg (by simp [h5]),
      if_neg (by simp [h6])]

theorem analyze_deal_spec_witness :
    (trimL "  ".data = [] ∧
      (processLine ratedDeal ("TIER:".data ++ "  ".data)).tier = 2) ∧
    (trimL " strong".data = 's' :: "trong".data ∧ 's'.isDigit = false ∧
      (processLine ratedDeal ("TIER:".data ++ " strong".data)).tier = 2) ∧
    ("FIT_SCORE:".data.isPrefixOf "hello".data = false ∧
      "TIER:".data.isPrefixOf "hello".data = false ∧
      "RECOMMENDATION:".data.isPrefixOf "hello".data = false ∧
      "CRITERIA_TAGS:".data.isPrefixOf "hello".data = false ∧
      "KEY_DETAILS:".data.isPrefixOf "hello".data = false ∧
      "NEXT_STEP:".data.isPrefixOf "hello".data = false ∧
      processLine ratedDeal "hello".data = ratedDeal) :=
  ⟨⟨by decide, analyze_deal_spec.2.1 ratedDeal "  ".data (by decide)⟩,
   ⟨by decide, by decide,
    analyze_deal_spec.2.2.1 ratedDeal " strong".data 's' "trong".data
      (by decide) (by decide)⟩,
   by decide, by decide, by decide, by decide, by decide, by decide,
   analyze_deal_spec.2.2.2.1 ratedDeal "hello".data (by decide) (by decide)
     (by decide) (by decide) (by decide) (by decide)⟩

/-! ### `_build_deal_table_html` (deal_finder.py lines 1189-1211)

The function filters the deal list into three tier buckets and emits one
HTML section header plus one numbered row per deal, in bucket order.  The
model captures the emitted sequence of headers and rows (`RowItem`); the
HTML text of each row is presentation and is not modelled. -/

inductive RowItem where
  | header (s : String)
  | row (idx : Nat) (deal : Deal)
deriving DecidableEq

/-- Emit one numbered row per deal, threading the running `idx`. -/
def bucketRows (start : Nat) : List Deal → List RowItem × Nat
  | [] => ([], start)
  | d :: t =>
    let p := bucketRows (start + 1) t
    (RowItem.row start d :: p.1, p.2)

/-- One `if tierN:` block: a section header followed by the bucket's rows,
or nothing when the bucket is empty. -/
def sectionRows (hdr : String) (start : Nat) (ds : List Deal) :
    List RowItem × Nat :=
  if ds.isEmpty then ([], start)
  else
    let p := bucketRows start ds
    (RowItem.header hdr :: p.1, p.2)

/-- Model of the row-emission of `_build_deal_table_html`. -/
def build_deal_table_rows (deals : List Deal) : List RowItem :=
  let tier1 := deals.filter (fun d => d.tier == 1)
  let tier2 := deals.filter (fun d => d.tier == 2)
  let tier3 := deals.filter (fun d => d.tier == 3 || d.tier == 0)
  let s1 := sectionRows "TIER 1 — Strongest Matches (Pursue)" 1 tier1
  let s2 := sectionRows "TIER 2 — Worth Investigating" s1.2 tier2
  let s3 := sectionRows "TIER 3 — Marginal / Watch List" s2.2 tier3
  s1.1 ++ s2.1 ++ s3.1

/-- The deal carried by a row item. -/
def rowDeal : RowItem → Option Deal
  | .row _ d => some d
  | .header _ => none

lemma bucketRows_deals (ds : List Deal) :
    ∀ start, ((bucketRows start ds).1.filterMap rowDeal) = ds := by
  induction ds with
  | nil => intro start; rfl
  | cons d t ih =>
    intro start
    simp [bucketRows, rowDeal, ih]

lemma sectionRows_deals (hdr : String) (start : Nat) (ds : List Deal) :
    ((sectionRows hdr start ds).1.filterMap rowDeal) = ds := by
  rw [sectionRows]
  by_cases h : ds.isEmpty
  · rw [if_pos h]
    simp [List.isEmpty_iff.mp h]
  · rw [if_neg h]
    simp [rowDeal, bucketRows_deals]

/-- A minimal deal with a given tier, for the C7 example. -/
def tierDeal (n : Int) (u : String) : Deal where
  title := "Example Healthcare Listing"
  source := "BizBuySell"
  asking_price := none
  revenue := none
  cash_flow := none
  location := none
  description := none
  url := u
  tier := n

/-- C7: the table renders the deals partitioned into three buckets — tier 1
first, then tier 2, then tiers 3 and 0 combined — each bucket in input
order; in particular for input tiers [1,2,1,0,3] the rendered deal order is
the two tier-1 deals, then the tier-2 deal, then the tier-0 and tier-3
deals. -/
theorem build_deal_table_partition (deals : List Deal) :
    (build_deal_table_rows deals).filterMap rowDeal =
      deals.filter (fun d => d.tier == 1) ++
      deals.filter (fun d => d.tier == 2) ++
      deals.filter (fun d => d.tier == 3 || d.tier == 0) ∧
    (build_deal_table_rows
        [tierDeal 1 "a", tierDeal 2 "b", tierDeal 1 "c", tierDeal 0 "d",
         tierDeal 3 "e"]).filterMap rowDeal =
      [tierDeal 1 "a", tierDeal 1 "c", tierDeal 2 "b", tierDeal 0 "d",
       tierDeal 3 "e"] := by
  constructor
  · dsimp only [build_deal_table_rows]
    rw [List.filterMap_append, List.filterMap_append, sectionRows_deals,
      sectionRows_deals, sectionRows_deals]
  · decide

/-! ### `_update_archive` (deal_finder.py lines 1277-1317)

The manifest is a JSON array of entries; the model carries the parsed list.
The function drops any entry with the new date, appends the new entry,
sorts newest-first (`archive.sort(key=..., reverse=True)`, Python's stable
sort), then pops entries off the end while the manifest exceeds
`max_reports`, unlinking each popped entry's report file.  The model
returns the final manifest together with the list of popped entries (whose
`file` fields are the paths unlinked). -/

structure ArchiveEntry where
  date : String
  file : String
  deal_count : Int
  pursue_count : Int
deriving DecidableEq

/-- Date-descending comparison used by the manifest sort. -/
def dateGe (a b : ArchiveEntry) : Prop := b.date ≤ a.date

instance : DecidableRel dateGe :=
  fun a b => inferInstanceAs (Decidable (b.date ≤ a.date))

instance : IsTotal ArchiveEntry dateGe := ⟨fun a b => le_total b.date a.date⟩

instance : IsTrans ArchiveEntry dateGe :=
  ⟨fun _ _ _ h1 h2 => le_trans h2 h1⟩

/-- The `while len(archive) > max_reports: old = archive.pop(); ...` loop,
accumulating the popped entries. -/
def pruneLoop (maxReports : Nat) (archive deleted : List ArchiveEntry) :
    List ArchiveEntry × List ArchiveEntry :=
  if h : maxReports < archive.length then
    pruneLoop maxReports archive.dropLast
      (deleted ++ [archive.getLast (List.ne_nil_of_length_pos (by omega))])
  else (archive, deleted)
termination_by archive.length
decreasing_by
  simp only [List.length_dropLast]
  omega

/-- The entry appended for the current run (`archive.append(...)` with the
new date, report path and counts). -/
def newArchiveEntry (dateStr : String) (dealCount pursueCount : Int) :
    ArchiveEntry :=
  ⟨dateStr, "reports/" ++ dateStr ++ ".html", dealCount, pursueCount⟩

/-- Model of `_update_archive`: returns the written manifest and the popped
(unlinked) entries. -/
def update_archive (maxReports : Nat) (dateStr : String)
    (dealCount pursueCount : Int) (archive : List ArchiveEntry) :
    List ArchiveEntry × List ArchiveEntry :=
  let archive1 := archive.filter (fun e => e.date != dateStr)
  let archive2 := archive1 ++ [newArchiveEntry dateStr dealCount pursueCount]
  let archive3 := List.insertionSort dateGe archive2
  pruneLoop maxReports archive3 []

lemma pruneLoop_eq (maxReports : Nat) :
    ∀ (n : Nat) (l acc : List ArchiveEntry), l.length ≤ n →
      pruneLoop maxReports l acc =
        (l.take maxReports, acc ++ (l.drop maxReports).reverse) := by
  intro n
  induction n with
  | zero =>
    intro l acc h
    have hl : l = [] := List.eq_nil_of_length_eq_zero (by omega)
    subst hl
    rw [pruneLoop]
    simp
  | succ n ih =>
    intro l acc h
    rw [pruneLoop]
    by_cases hlt : maxReports < l.length
    · rw [dif_pos hlt, ih _ _ (by simp [List.length_dropLast]; omega)]
      have hmax : maxReports ≤ l.dropLast.length := by
        simp [List.length_dropLast]; omega
      have hne : l ≠ [] := List.ne_nil_of_length_pos (by omega)
      have hsplit : l = l.dropLast ++ [l.getLast hne] :=
        (List.dropLast_append_getLast hne).symm
      simp only [Prod.mk.injEq]
      constructor
      · rw [List.dropLast_eq_take, List.take_take]
        congr 1
        omega
      · conv_rhs => rw [hsplit]
        rw [List.drop_append_of_le_length hmax]
        simp
    · rw [dif_neg hlt]
      have hle : l.length ≤ maxReports := le_of_not_lt hlt
      rw [List.take_of_length_le hle, List.drop_eq_nil_of_le hle]
      simp

lemma update_archive_take_drop (m : Nat) (dateStr : String) (dc pc : Int)
    (archive : List ArchiveEntry) :
    update_archive m dateStr dc pc archive =
      ((List.insertionSort dateGe (archive.filter (fun e => e.date != dateStr)
          ++ [newArchiveEntry dateStr dc pc])).take m,
       ((List.insertionSort dateGe (archive.filter (fun e => e.date != dateStr)
          ++ [newArchiveEntry dateStr dc pc])).drop m).reverse) := by
  dsimp only [update_archive]
  rw [pruneLoop_eq m _ _ _ (le_refl _)]
  simp

/-- C8: with the manifest already at `max_reports` entries and a fresh
date, `_update_archive` appends the new entry, leaves the written manifest
sorted newest-first at exactly `max_reports` entries, and pops (unlinking
its report file) exactly one entry — one whose date is the oldest among the
old manifest and the new entry. -/
theorem update_archive_prune (m : Nat) (dateStr : String) (dc pc : Int)
    (archive : List ArchiveEntry)
    (hlen : archive.length = m)
    (hfresh : dateStr ∉ archive.map (fun e => e.date)) :
    (update_archive m dateStr dc pc archive).1.length = m ∧
    (update_archive m dateStr dc pc archive).1.Pairwise dateGe ∧
    ∃ old : ArchiveEntry,
      (update_archive m dateStr dc pc archive).2 = [old] ∧
      (∀ e ∈ archive, old.date ≤ e.date) ∧ old.date ≤ dateStr ∧
      ((update_archive m dateStr dc pc archive).1 ++ [old]).Perm
        (archive ++ [newArchiveEntry dateStr dc pc]) := by
  have hfilter : archive.filter (fun e => e.date != dateStr) = archive := by
    rw [List.filter_eq_self]
    intro e he
    simp only [bne_iff_ne, ne_eq]
    intro hcontra
    exact hfresh (hcontra ▸ List.mem_map_of_mem _ he)
  rw [update_archive_take_drop, hfilter]
  set C := List.insertionSort dateGe
    (archive ++ [newArchiveEntry dateStr dc pc]) with hC
  have hperm : C.Perm (archive ++ [newArchiveEntry dateStr dc pc]) :=
    List.perm_insertionSort _ _
  have hclen : C.length = m + 1 := by
    rw [hperm.length_eq]
    simp [hlen]
  have hsorted : C.Pairwise dateGe := List.sorted_insertionSort _ _
  obtain ⟨old, hold⟩ : ∃ old, C.drop m = [old] :=
    List.length_eq_one.mp (by rw [List.length_drop]; omega)
  have hCsplit : C.take m ++ [old] = C := by
    rw [← hold]
    exact List.take_append_drop m C
  have hcross : ∀ a ∈ C.take m, old.date ≤ a.date := by
    have := hCsplit ▸ hsorted
    have hp := (List.pairwise_append.mp this).2.2
    intro a ha
    exact hp a ha old (List.mem_singleton_self old)
  have hminC : ∀ e ∈ C, old.date ≤ e.date := by
    intro e he
    rw [← hCsplit] at he
    rcases List.mem_append.mp he with h | h
    · exact hcross e h
    · rw [List.mem_singleton.mp h]
  refine ⟨by simp [List.length_take, hclen], ?_, old, by simp [hold], ?_, ?_, ?_⟩
  · exact hsorted.sublist (List.take_sublist m C)
  · intro e he
    exact hminC e (hperm.mem_iff.mpr (List.mem_append_left _ he))
  · exact hminC (newArchiveEntry dateStr dc pc)
      (hperm.mem_iff.mpr (List.mem_append_right _ (List.mem_singleton_self _)))
  · rw [hCsplit]
    exact hperm

/-- C10: `_update_archive` first removes any manifest entry carrying the new
date, so distinct dates stay distinct; re-running on an already archived
date replaces that day's entry without growing the manifest or pruning any
report file. -/
theorem update_archive_unique_dates (m : Nat) (dateStr : String)
    (dc pc : Int) (archive : List ArchiveEntry)
    (hnd : (archive.map (fun e => e.date)).Nodup) :
    ((update_archive m dateStr dc pc archive).1.map
      (fun e => e.date)).Nodup ∧
    (dateStr ∈ archive.map (fun e => e.date) → archive.length ≤ m →
      (update_archive m dateStr dc pc archive).1.length = archive.length ∧
      (update_archive m dateStr dc pc archive).2 = [] ∧
      dateStr ∈ (update_archive m dateStr dc pc archive).1.map
        (fun e => e.date)) := by
  rw [update_archive_take_drop]
  set F := archive.filter (fun e => e.date != dateStr) with hF
  set C := List.insertionSort dateGe
    (F ++ [newArchiveEntry dateStr dc pc]) with hC
  have hperm : C.Perm (F ++ [newArchiveEntry dateStr dc pc]) :=
    List.perm_insertionSort _ _
  have hFnd : (F.map (fun e => e.date)).Nodup :=
    hnd.sublist ((List.filter_sublist archive).map _)
  have hFnotin : dateStr ∉ F.map (fun e => e.date) := by
    intro hmem
    obtain ⟨e, heF, hedate⟩ := List.mem_map.mp hmem
    have := List.of_mem_filter heF
    simp only [bne_iff_ne, ne_eq] at this
    exact this hedate
  have hCnd : (C.map (fun e => e.date)).Nodup := by
    refine (hperm.map (fun e => e.date)).nodup_iff.mpr ?_
    rw [List.map_append]
    refine List.Nodup.append hFnd (List.nodup_singleton _) ?_
    intro a haF haNew
    simp only [List.map_cons, List.map_nil, List.mem_singleton,
      newArchiveEntry] at haNew
    exact hFnotin (haNew ▸ haF)
  constructor
  · exact hCnd.sublist ((List.take_sublist m C).map _)
  · intro hmem hlen
    have hcount : archive.countP (fun e => e.date == dateStr) = 1 := by
      have h1 : (archive.map (fun e => e.date)).count dateStr = 1 :=
        List.count_eq_one_of_mem hnd hmem
      rw [List.count, List.countP_map] at h1

      exact h1
    have hFlen : F.length + 1 = archive.length := by
      have hsplit := List.length_eq_length_filter_add
        (l := archive) (fun e => e.date == dateStr)
      have h2 : (archive.filter (fun e => e.date == dateStr)).length = 1 := by
        rw [← List.countP_eq_length_filter]
        exact hcount
      have h3 : archive.filter (fun e => !(e.date == dateStr)) = F := by
        rw [hF]
        congr 1
      rw [h2, h3] at hsplit
      omega
    have hclen : C.length = archive.length := by
      rw [hperm.length_eq]
      simp [← hFlen]
    have htake : C.take m = C := List.take_of_length_le (by omega)
    have hdrop : C.drop m = [] := List.drop_eq_nil_of_le (by omega)
    refine ⟨by rw [htake]; exact hclen, by rw [hdrop]; rfl, ?_⟩
    rw [htake]
    refine List.mem_map.mpr ⟨newArchiveEntry dateStr dc pc, ?_, rfl⟩
    exact hperm.mem_iff.mpr (List.mem_append_right _ (List.mem_singleton_self _))

/-- A two-entry manifest at the maximum size, for the C8 witness. -/
def archiveAtMax : List ArchiveEntry :=
  [⟨"2024-02-02", "reports/2024-02-02.html", 4, 1⟩,
   ⟨"2024-01-01", "reports/2024-01-01.html", 3, 0⟩]

theorem update_archive_prune_witness :
    archiveAtMax.length = 2 ∧
    "2024-03-03" ∉ archiveAtMax.map (fun e => e.date) ∧
    ((update_archive 2 "2024-03-03" 5 2 archiveAtMax).1.length = 2 ∧
     (update_archive 2 "2024-03-03" 5 2 archiveAtMax).1.Pairwise dateGe ∧
     ∃ old : ArchiveEntry,
       (update_archive 2 "2024-03-03" 5 2 archiveAtMax).2 = [old] ∧
       (∀ e ∈ archiveAtMax, old.date ≤ e.date) ∧ old.date ≤ "2024-03-03" ∧
       ((update_archive 2 "2024-03-03" 5 2 archiveAtMax).1 ++ [old]).Perm
         (archiveAtMax ++ [newArchiveEntry "2024-03-03" 5 2])) :=
  ⟨by decide, by decide,
   update_archive_prune 2 "2024-03-03" 5 2 archiveAtMax
     (by decide) (by decide)⟩

/-- A manifest already holding today's date, for the C10 witness. -/
def archiveWithToday : List ArchiveEntry :=
  [⟨"2024-02-02", "reports/2024-02-02.html", 4, 1⟩,
   ⟨"2024-01-01", "reports/2024-01-01.html", 3, 0⟩]

theorem update_archive_unique_dates_witness :
    (archiveWithToday.map (fun e => e.date)).Nodup ∧
    "2024-02-02" ∈ archiveWithToday.map (fun e => e.date) ∧
    archiveWithToday.length ≤ 12 ∧
    ((update_archive 12 "2024-02-02" 6 2 archiveWithToday).1.length =
       archiveWithToday.length ∧
     (update_archive 12 "2024-02-02" 6 2 archiveWithToday).2 = [] ∧
     "2024-02-02" ∈ (update_archive 12 "2024-02-02" 6 2
       archiveWithToday).1.map (fun e => e.date)) :=
  ⟨by decide, by decide, by decide,
   (update_archive_unique_dates 12 "2024-02-02" 6 2 archiveWithToday
     (by decide)).2 (by decide) (by decide)⟩

end HealthcareDeals
